import Mathlib

/-!
Verification development for the mysql-binlog-rs CDC client.

Byte streams are shallowly embedded as `List Nat` (each element a byte value),
machine integers as `Nat` with explicit reduction modulo `2 ^ w` wherever the
Rust code can overflow or truncate.  Fallible Rust functions (`Result`, panics
via `unwrap`) are embedded as `Option`-returning functions, `none` standing for
an error or panic.  Rust loops over indices are embedded as fuel-based
structural recursions; every top-level entry point passes fuel that provably
exceeds the number of iterations the Rust loop can perform, so the fuel-out
branch is unreachable on those calls.
-/

/-! ## Cursor-style byte readers (src/binlog.rs, src/protocol.rs)

A Rust `Cursor<&[u8]>` is embedded as the list of bytes not yet consumed; each
reader returns the value read together with the remaining bytes, or `none` on
a short read (the `std::io` error path).
-/

/-- `cursor.read_u8()`: one byte. -/
def read_u8 : List Nat → Option (Nat × List Nat)
  | [] => none
  | b :: rest => some (b, rest)

/-- `cursor.read_u24::<LittleEndian>()`: three bytes, little-endian. -/
def read_u24le : List Nat → Option (Nat × List Nat)
  | b0 :: b1 :: b2 :: rest => some (b0 + b1 * 256 + b2 * 65536, rest)
  | _ => none

/-- `cursor.read_u64::<LittleEndian>()`: eight bytes, little-endian. -/
def read_u64le : List Nat → Option (Nat × List Nat)
  | b0 :: b1 :: b2 :: b3 :: b4 :: b5 :: b6 :: b7 :: rest =>
      some (b0 + b1 * 256 + b2 * 65536 + b3 * 16777216 + b4 * 4294967296 +
            b5 * 1099511627776 + b6 * 281474976710656 + b7 * 72057594037927936, rest)
  | _ => none

/-- `read_lcb` (src/binlog.rs lines 335-345): MySQL length-coded binary.
Note the source reads a *u24* for the `0xfc` prefix (same line as `0xfd`),
and returns an error (`none` here) for `0xff`. -/
def read_lcb (s : List Nat) : Option (Nat × List Nat) :=
  match s with
  | [] => none
  | b :: rest =>
    if b ≤ 0xfa then some (b, rest)
    else if b = 0xfb then some (0, rest)
    else if b = 0xfc then read_u24le rest
    else if b = 0xfd then read_u24le rest
    else if b = 0xfe then read_u64le rest
    else none

/-- `stream.read_exact(&mut buf)` on a `Vec` of length `n`: consumes exactly
`n` bytes or fails (short read / EOF). -/
def readExact (n : Nat) (s : List Nat) : Option (List Nat × List Nat) :=
  if n ≤ s.length then some (s.take n, s.drop n) else none

/-- `PacketChannel::read_packet` (src/protocol.rs lines 31-47): reads the
3-byte little-endian length, one sequence byte, then exactly `length` body
bytes, and returns the body.  The incoming TCP stream is embedded as the list
of bytes the socket will deliver; the unread remainder is returned alongside
the body.  The source contains no handling of the `0x00FFFFFF` continuation
convention: it returns after a single frame. -/
def readPacket (s : List Nat) : Option (List Nat × List Nat) := do
  let (lenBuf, s1) ← readExact 3 s
  let length := lenBuf.getD 0 0 + lenBuf.getD 1 0 * 256 + lenBuf.getD 2 0 * 65536
  let (_seq, s2) ← readExact 1 s1
  let (body, s3) ← readExact length s2
  some (body, s3)

/-! ## BINLOG_DUMP command encoding (src/binlog_client.rs lines 283-311) -/

/-- Little-endian u16 serialization (`write_u16::<LittleEndian>`). -/
def u16le (n : Nat) : List Nat := [n % 256, n / 256 % 256]

/-- Little-endian u32 serialization (`write_u32::<LittleEndian>`). -/
def u32le (n : Nat) : List Nat :=
  [n % 256, n / 256 % 256, n / 65536 % 256, n / 16777216 % 256]

/-- `BinlogClient::create_binlog_dump_command`: `COM_BINLOG_DUMP = 0x12`,
position truncated by the `binlog_position as u32` cast, flags `0`, server id,
then the filename bytes with no terminator.  The filename is embedded as its
byte sequence (`binlog_filename.as_bytes()`). -/
def create_binlog_dump_command (server_id : Nat) (binlog_filename : List Nat)
    (binlog_position : Nat) : List Nat :=
  0x12 :: (u32le (binlog_position % 4294967296) ++ u16le 0 ++ u32le (server_id % 4294967296)
    ++ binlog_filename)

/-- Modelled from the spec: the decoder for the layout stated in the claim,
`cmd:u8 = 0x12, pos:u32 LE, flags:u16 LE, server_id:u32 LE, filename: raw
bytes to the end`, returning `(server_id, filename, position)`.  The source
has no decoder; this is the refinement counterpart the round-trip claim
compares the encoder against. -/
def decode_binlog_dump_command (buf : List Nat) : Option (Nat × List Nat × Nat) :=
  match buf with
  | cmd :: p0 :: p1 :: p2 :: p3 :: f0 :: f1 :: s0 :: s1 :: s2 :: s3 :: rest =>
    if cmd = 0x12 ∧ f0 = 0 ∧ f1 = 0 then
      some (s0 + s1 * 256 + s2 * 65536 + s3 * 16777216, rest,
            p0 + p1 * 256 + p2 * 65536 + p3 * 16777216)
    else none
  | _ => none

/-! ## GTID model (src/gtid.rs)

Sequence numbers are `u64` in the source; they are embedded as `Nat`, with the
wrapping `+ 1` / `- 1` of `u64` made explicit through `u64add1` / `u64sub1`.
`GtidRange::new(..).unwrap()` panics are embedded as `none`.
-/

/-- `2 ^ 64`, the modulus of Rust `u64` arithmetic. -/
def U64 : Nat := 18446744073709551616

/-- Wrapping `u64` increment (`x + 1` on `u64`). -/
def u64add1 (x : Nat) : Nat := (x + 1) % U64

/-- Wrapping `u64` decrement (`x - 1` on `u64`). -/
def u64sub1 (x : Nat) : Nat := (x + (U64 - 1)) % U64

/-- `GtidRange { start, end }`; the Rust field `end` is called `stop` here
because `end` is a Lean keyword. -/
structure GtidRange where
  start : Nat
  stop : Nat
deriving DecidableEq

/-- `GtidRange::new`: rejects `start > end` (`CdcError::GtidError`). -/
def GtidRange.new (s e : Nat) : Option GtidRange :=
  if s > e then none else some ⟨s, e⟩

/-- `GtidRange::contains`: `value >= self.start && value <= self.end`. -/
def GtidRange.containsV (r : GtidRange) (v : Nat) : Bool :=
  v ≥ r.start && v ≤ r.stop

/-- `GtidRange::merge`: merges touching or overlapping ranges. -/
def GtidRange.merge (a b : GtidRange) : Option GtidRange :=
  if u64add1 a.stop ≥ b.start && u64add1 b.stop ≥ a.start then
    some ⟨min a.start b.start, max a.stop b.stop⟩
  else none

/-- `UUIDGtidSet { uuid, ranges }`. -/
structure UUIDGtidSet where
  uuid : String
  ranges : List GtidRange
deriving DecidableEq

/-- The merge-search loop inside `UUIDGtidSet::add_gtid`: finds the first
existing range that merges with `g`, replaces it by the merged range and, if
that in turn merges with its successor, collapses the two; returns `none`
when no existing range merges with `g`. -/
def addGtidLoop : List GtidRange → GtidRange → Option (List GtidRange)
  | [], _ => none
  | r :: rest, g =>
    match r.merge g with
    | some m =>
      match rest with
      | r2 :: rest2 =>
        match m.merge r2 with
        | some m2 => some (m2 :: rest2)
        | none => some (m :: rest)
      | [] => some [m]
    | none => (addGtidLoop rest g).map (fun tail => r :: tail)

/-- Insertion into a list sorted by the derived `Ord` of `GtidRange`
(lexicographic on `(start, end)`); models `Vec::sort` of the source, which is
applied to an already sorted vector plus one pushed element. -/
def insertSorted (g : GtidRange) : List GtidRange → List GtidRange
  | [] => [g]
  | r :: rest =>
    if g.start < r.start ∨ (g.start = r.start ∧ g.stop ≤ r.stop) then g :: r :: rest
    else r :: insertSorted g rest

/-- `self.ranges.sort()` of `UUIDGtidSet::add_gtid`: insertion sort by the
derived lexicographic order. -/
def sortRanges : List GtidRange → List GtidRange
  | [] => []
  | r :: rest => insertSorted r (sortRanges rest)

/-- `UUIDGtidSet::add_gtid`: merge the singleton `[seq, seq]` into an existing
range (with one cascading merge) or push it and re-sort.  The source's only
error path, `GtidRange::new(sequence, sequence)`, cannot fail, so the
embedding is total. -/
def UUIDGtidSet.addGtid (u : UUIDGtidSet) (seq : Nat) : UUIDGtidSet :=
  match addGtidLoop u.ranges ⟨seq, seq⟩ with
  | some rs => { u with ranges := rs }
  | none => { u with ranges := sortRanges (u.ranges ++ [⟨seq, seq⟩]) }

/-- `rs.iter().any(|r| r.contains(x))`, the body of `UUIDGtidSet::contains`. -/
def rangesContain (rs : List GtidRange) (x : Nat) : Bool :=
  rs.any (fun r => r.containsV x)

/-- `Vec::join(",")`: fragments joined by commas. -/
def joinWithComma : List String → String
  | [] => ""
  | [s] => s
  | s :: rest => s ++ "," ++ joinWithComma rest

/-- `UUIDGtidSet::to_string`: ranges rendered `start` (singleton) or
`start-end`, joined by commas. -/
def UUIDGtidSet.toStr (u : UUIDGtidSet) : String :=
  joinWithComma (u.ranges.map (fun r =>
    if r.start = r.stop then toString r.start
    else toString r.start ++ "-" ++ toString r.stop))

/-- `GtidSet { sets: BTreeMap<String, UUIDGtidSet> }`; the `BTreeMap` is
embedded as an association list kept sorted by key (insertion below preserves
the order, matching the map's ascending iteration order). -/
structure GtidSet where
  sets : List (String × UUIDGtidSet)
deriving DecidableEq

/-- `BTreeMap::get`. -/
def mapGet : List (String × UUIDGtidSet) → String → Option UUIDGtidSet
  | [], _ => none
  | p :: rest, k => if p.1 = k then some p.2 else mapGet rest k

/-- Lexicographic order on character lists (by code point), matching the
`Ord<String>` order a Rust `BTreeMap<String, _>` sorts its keys by. -/
def charsLt : List Char → List Char → Bool
  | [], [] => false
  | [], _ :: _ => true
  | _ :: _, [] => false
  | a :: as, b :: bs =>
    if a.toNat < b.toNat then true
    else if b.toNat < a.toNat then false
    else charsLt as bs

/-- String order of the `BTreeMap` keys. -/
def strLt (a b : String) : Bool := charsLt a.data b.data

/-- `BTreeMap::insert`: replaces an existing binding, otherwise inserts at the
position given by the ascending key order. -/
def mapInsert (k : String) (v : UUIDGtidSet) :
    List (String × UUIDGtidSet) → List (String × UUIDGtidSet)
  | [] => [(k, v)]
  | p :: rest =>
    if strLt k p.1 then (k, v) :: p :: rest
    else if k = p.1 then (k, v) :: rest
    else p :: mapInsert k v rest

/-! ### `GtidSet::parse` (src/gtid.rs lines 114-181) -/

/-- Rust `char::is_ascii_hexdigit`. -/
def isAsciiHexDigit (c : Char) : Bool :=
  c.isDigit || ('a' ≤ c && c ≤ 'f') || ('A' ≤ c && c ≤ 'F')

/-- The `for i in pos..pos.saturating_add(10).min(chars.len())` loop of
`is_uuid_start`, counting hex digits and dashes; reaching a `:` returns
`hex_count > 8`, any other character returns `false`, and falling off the end
of the 10-character window returns `false`. -/
def isUuidStartLoop (chars : List Char) (stopIdx : Nat) : Nat → Nat → Nat → Bool
  | 0, _, _ => false
  | fuel + 1, i, hexCount =>
    if i < stopIdx then
      let c := chars.getD i ' '
      if isAsciiHexDigit c || c = '-' then isUuidStartLoop chars stopIdx fuel (i + 1) (hexCount + 1)
      else if c = ':' then hexCount > 8
      else false
    else false

/-- `is_uuid_start` (src/gtid.rs lines 265-282): the heuristic used by the
parser to decide whether a comma begins a new UUID section.  Note it inspects
at most 10 characters, so a real 36-character UUID never returns `true`. -/
def isUuidStart (chars : List Char) (pos : Nat) : Bool :=
  if pos + 3 ≥ chars.length then false
  else isUuidStartLoop chars (min (pos + 10) chars.length) 11 pos 0

/-- The `while i < chars.len() && chars[i] != ':'` scan of `parse` (UUID part);
returns the index of the first `:` at or after `i`, or `chars.length`. -/
def scanUntilColon (chars : List Char) : Nat → Nat → Nat
  | 0, i => i
  | fuel + 1, i =>
    if i < chars.length then
      if chars.getD i ' ' = ':' then i else scanUntilColon chars fuel (i + 1)
    else i

/-- The ranges scan of `parse` (src/gtid.rs lines 141-146), with its condition
translated literally:
`while i < len && chars[i] != ',' || (i > 0 && i + 1 < len && is_uuid_start(i+1))`
with a `break` at `chars[i] == ',' && is_uuid_start(i+1)`.  The net effect is
to stop at the first comma or at the end of the string. -/
def scanRanges (chars : List Char) : Nat → Nat → Nat
  | 0, i => i
  | fuel + 1, i =>
    if (decide (i < chars.length) && (chars.getD i ' ' != ',')) ||
       (decide (0 < i) && decide (i + 1 < chars.length) && isUuidStart chars (i + 1)) then
      if (chars.getD i ' ' == ',') && isUuidStart chars (i + 1) then i
      else scanRanges chars fuel (i + 1)
    else i

/-- Rust `str::split(sep)` on the character list of a string: the list of
fragments between occurrences of `sep` (an empty input gives one empty
fragment, like Rust). -/
def splitOnChar (sep : Char) : List Char → List (List Char)
  | [] => [[]]
  | c :: rest =>
    let r := splitOnChar sep rest
    if c = sep then [] :: r
    else
      match r with
      | h :: t => (c :: h) :: t
      | [] => [[c]]

/-- Rust `str::trim` on the character list: strip leading and trailing
whitespace. -/
def charsTrim (l : List Char) : List Char :=
  ((l.dropWhile Char.isWhitespace).reverse.dropWhile Char.isWhitespace).reverse

/-- Rust `str::parse::<u64>()`: optional leading `+`, then one or more ASCII
digits, value below `2 ^ 64`. -/
def parseU64 (s : List Char) : Option Nat :=
  let cs := match s with
    | '+' :: rest => rest
    | cs => cs
  if cs.isEmpty then none
  else if cs.all Char.isDigit then
    let v := cs.foldl (fun acc c => acc * 10 + (c.toNat - 48)) 0
    if v < U64 then some v else none
  else none

/-- The per-token body of the `for range_part in ranges_str.split(',')` loop
of `parse`: trims the token, skips empty tokens, handles `N-M` tokens (note a
token that splits into a number of `-`-separated parts other than 2 is
silently skipped), and treats everything else as a single sequence number fed
to `add_gtid`.  `none` is the `CdcError::GtidError` path. -/
def parseRangeToken (uset : UUIDGtidSet) (part0 : List Char) : Option UUIDGtidSet :=
  let part := charsTrim part0
  if part.isEmpty then some uset
  else if part.any (fun c => c = '-') && !(part.headD ' ' = '-' : Bool) then
    let parts := splitOnChar '-' part
    if parts.length = 2 then do
      let s ← parseU64 (parts.getD 0 [])
      let e ← parseU64 (parts.getD 1 [])
      let r ← GtidRange.new s e
      some { uset with ranges := uset.ranges ++ [r] }
    else some uset
  else do
    let seq ← parseU64 part
    some (uset.addGtid seq)

/-- The outer `while i < chars.len()` loop of `GtidSet::parse`: scans a UUID
up to `:` (breaking at end of input if no colon remains), scans the range
substring up to the first comma, parses its comma-separated tokens, inserts
the resulting `UUIDGtidSet` into the map, skips a trailing comma and repeats.
The fuel strictly exceeds the iteration count whenever it exceeds
`chars.length`, since `i` strictly increases each iteration. -/
def parseLoop (chars : List Char) :
    Nat → Nat → List (String × UUIDGtidSet) → Option (List (String × UUIDGtidSet))
  | 0, _, _ => none
  | fuel + 1, i, acc =>
    if i < chars.length then
      let colon := scanUntilColon chars (chars.length + 1) i
      if colon ≥ chars.length then some acc
      else
        let uuid := String.mk ((chars.drop i).take (colon - i))
        let j := colon + 1
        let k := scanRanges chars (chars.length + 1) j
        let rangesStr := (chars.drop j).take (k - j)
        match (splitOnChar ',' rangesStr).foldlM parseRangeToken ⟨uuid, []⟩ with
        | none => none
        | some uset =>
          let acc' := mapInsert uuid uset acc
          let i' := if k < chars.length && (chars.getD k ' ' == ',') then k + 1 else k
          parseLoop chars fuel i' acc'
    else some acc

/-- `GtidSet::parse`: empty string and `"NULL"` give the empty set, otherwise
the character-indexed loop above; `none` is the `CdcError::GtidError` path. -/
def GtidSet.parse (gtid_str : String) : Option GtidSet :=
  if gtid_str = "" ∨ gtid_str = "NULL" then some ⟨[]⟩
  else
    (parseLoop gtid_str.data (gtid_str.data.length + 1) 0 []).map (fun sets => ⟨sets⟩)

/-- `GtidSet::contains` after splitting the textual GTID `"uuid:seq"` into its
components: look the UUID up and test the sequence against its ranges. -/
def GtidSet.containsPair (s : GtidSet) (uuid : String) (seq : Nat) : Bool :=
  match mapGet s.sets uuid with
  | some uset => rangesContain uset.ranges seq
  | none => false

/-- `GtidSet::to_string`: each non-empty UUID section rendered
`uuid:ranges`, joined by commas in ascending UUID order. -/
def GtidSet.toStr (s : GtidSet) : String :=
  if s.sets.isEmpty then ""
  else
    joinWithComma (s.sets.filterMap (fun p =>
      let rangesStr := p.2.toStr
      if rangesStr.isEmpty then none else some (p.1 ++ ":" ++ rangesStr)))

/-! ### `GtidSet::subtract` (src/gtid.rs lines 214-242) -/

/-- One pass of the inner loop of `subtract`: removes `o` from each range of
`rs` in order, keeping disjoint ranges and splitting overlapped ones into the
part below `o.start` and the part above `o.end`, each rebuilt through
`GtidRange::new(..).unwrap()` (`none` = panic). -/
def subtractRanges (rs : List GtidRange) (o : GtidRange) : Option (List GtidRange) :=
  match rs with
  | [] => some []
  | r :: rest =>
    if r.stop < o.start ∨ r.start > o.stop then
      (subtractRanges rest o).map (fun tail => r :: tail)
    else do
      let left ← if r.start < o.start then
          (GtidRange.new r.start (u64sub1 o.start)).map (fun g => [g])
        else some []
      let right ← if r.stop > o.stop then
          (GtidRange.new (u64add1 o.stop) r.stop).map (fun g => [g])
        else some []
      let tail ← subtractRanges rest o
      some (left ++ right ++ tail)

/-- The `for other_range in &other_set.ranges` loop of `subtract`: the result
ranges after removing every range of `os` in order. -/
def subtractAll (rs : List GtidRange) (os : List GtidRange) : Option (List GtidRange) :=
  os.foldlM (fun acc o => subtractRanges acc o) rs

/-- Per-entry action of `subtract` on the cloned map: an entry whose UUID also
appears in `other` has `other`'s ranges removed; other entries are kept.  The
source iterates `other.sets` and mutates the matching entries of the clone in
place, which touches exactly the entries this function rewrites. -/
def subtractEntry (B : GtidSet) (p : String × UUIDGtidSet) :
    Option (String × UUIDGtidSet) :=
  match mapGet B.sets p.1 with
  | some bset =>
      (subtractAll p.2.ranges bset.ranges).map (fun rs => (p.1, { p.2 with ranges := rs }))
  | none => some p

/-- The traversal of the cloned map entries: `subtract` clones `self` and
rewrites each entry in place, which is the entrywise action of
`subtractEntry` over the list of entries. -/
def subtractSets (B : GtidSet) : List (String × UUIDGtidSet) →
    Option (List (String × UUIDGtidSet))
  | [] => some []
  | p :: rest => do
    let q ← subtractEntry B p
    let qs ← subtractSets B rest
    some (q :: qs)

/-- `GtidSet::subtract`; `none` records that one of the internal
`GtidRange::new(..).unwrap()` calls would panic. -/
def GtidSet.subtract (A B : GtidSet) : Option GtidSet :=
  (subtractSets B A.sets).map (fun sets => ⟨sets⟩)

/-- Well-formedness inherited from the `u64` type of the source: both bounds
of a range are `u64` values.  Nothing is assumed about `start ≤ end` or about
the `start ≥ 1` invariant. -/
def rangeWf (r : GtidRange) : Prop := r.start < U64 ∧ r.stop < U64

/-- All ranges of a list are `u64`-valued. -/
def rangesWf (rs : List GtidRange) : Prop := ∀ r ∈ rs, rangeWf r

/-- All ranges of every UUID section are `u64`-valued. -/
def GtidSet.wf64 (s : GtidSet) : Prop :=
  ∀ p ∈ s.sets, rangesWf p.2.ranges

instance (r : GtidRange) : Decidable (rangeWf r) := by
  unfold rangeWf
  infer_instance

instance (rs : List GtidRange) : Decidable (rangesWf rs) := by
  unfold rangesWf
  infer_instance

instance (s : GtidSet) : Decidable s.wf64 := by
  unfold GtidSet.wf64
  infer_instance

/-! ## SHA-1 and mysql_native_password authentication (src/auth.rs)

The `sha1` crate used by the source implements FIPS 180 SHA-1; it is embedded
here directly from that standard (padding, message schedule, 80 rounds over
five 32-bit state words), with 32-bit words as `Nat` reduced modulo `M32`.
-/

def M32 : Nat := 4294967296

def rotl (n x : Nat) : Nat := ((x <<< n) % M32) ||| (x >>> (32 - n))

def sha1K (t : Nat) : Nat :=
  if t < 20 then 0x5A827999
  else if t < 40 then 0x6ED9EBA1
  else if t < 60 then 0x8F1BBCDC
  else 0xCA62C1D6

def sha1F (t b c d : Nat) : Nat :=
  if t < 20 then (b &&& c) ||| ((b ^^^ 0xFFFFFFFF) &&& d)
  else if t < 40 then b ^^^ c ^^^ d
  else if t < 60 then (b &&& c) ||| (b &&& d) ||| (c &&& d)
  else b ^^^ c ^^^ d

def sha1Schedule (block : List Nat) : List Nat :=
  let w0 := (List.range 16).map (fun i =>
    block.getD (4 * i) 0 * 16777216 + block.getD (4 * i + 1) 0 * 65536 +
    block.getD (4 * i + 2) 0 * 256 + block.getD (4 * i + 3) 0)
  (List.range 64).foldl (fun ws _ =>
    ws ++ [rotl 1 (ws.getD (ws.length - 3) 0 ^^^ ws.getD (ws.length - 8) 0 ^^^
                   ws.getD (ws.length - 14) 0 ^^^ ws.getD (ws.length - 16) 0)]) w0

def sha1Compress (h : Nat × Nat × Nat × Nat × Nat) (block : List Nat) :
    Nat × Nat × Nat × Nat × Nat :=
  let ws := sha1Schedule block
  let (h0, h1, h2, h3, h4) := h
  let st := (List.range 80).foldl (fun st t =>
    let (a, b, c, d, e) := st
    let temp := (rotl 5 a + sha1F t b c d + e + sha1K t + ws.getD t 0) % M32
    (temp, a, rotl 30 b, c, d)) (h0, h1, h2, h3, h4)
  let (a, b, c, d, e) := st
  ((h0 + a) % M32, (h1 + b) % M32, (h2 + c) % M32, (h3 + d) % M32, (h4 + e) % M32)

def u64be (n : Nat) : List Nat :=
  [n / 72057594037927936 % 256, n / 281474976710656 % 256, n / 1099511627776 % 256,
   n / 4294967296 % 256, n / 16777216 % 256, n / 65536 % 256, n / 256 % 256, n % 256]

def sha1Pad (msg : List Nat) : List Nat :=
  msg ++ 0x80 :: (List.replicate ((119 - msg.length % 64) % 64) 0 ++
    u64be (msg.length * 8 % 18446744073709551616))

def toBlocks : Nat → List Nat → List (List Nat)
  | _, [] => []
  | 0, _ => []
  | fuel + 1, l => l.take 64 :: toBlocks fuel (l.drop 64)

def sha1Init : Nat × Nat × Nat × Nat × Nat :=
  (0x67452301, 0xEFCDAB89, 0x98BADCFE, 0x10325476, 0xC3D2E1F0)

def wordBE (w : Nat) : List Nat :=
  [w / 16777216 % 256, w / 65536 % 256, w / 256 % 256, w % 256]

def sha1 (msg : List Nat) : List Nat :=
  let padded := sha1Pad msg
  match (toBlocks padded.length padded).foldl sha1Compress sha1Init with
  | (a, b, c, d, e) => wordBE a ++ wordBE b ++ wordBE c ++ wordBE d ++ wordBE e


/-- `create_auth_response` (src/auth.rs lines 33-56): empty reply for the
empty password, otherwise `SHA1(password) XOR SHA1(scramble + SHA1(SHA1(password)))`
computed by the source's 20-iteration XOR loop over the two digests. -/
def create_auth_response (password scramble : List Nat) : List Nat :=
  if password.isEmpty then []
  else
    let stage1 := sha1 password
    let stage2 := sha1 stage1
    let stage3 := sha1 (scramble ++ stage2)
    (List.range 20).map (fun i => stage1.getD i 0 ^^^ stage3.getD i 0)


/-! ## CDC engine change records (src/cdc_engine.rs)

`Utc::now()` is embedded as an explicit `now` parameter; `HashMap` as an
association list with replace-or-append insertion (its ordering is irrelevant
to the claims); the `CdcConfig` is reduced to the only field these functions
read, `include_ddl`.  The Rust string operations `to_uppercase` and
`starts_with` are embedded structurally over the character list (the queries
involved are ASCII).
-/

inductive OperationType where
  | Insert
  | Update
  | Delete
  | Ddl
deriving DecidableEq

inductive CellValue where
  | Null
  | Int8 (v : Int)
  | Int16 (v : Int)
  | Int32 (v : Int)
  | Int64 (v : Int)
  | UInt8 (v : Nat)
  | UInt16 (v : Nat)
  | UInt32 (v : Nat)
  | UInt64 (v : Nat)
  | Float
  | Double
  | String (s : String)
  | Bytes (bs : List Nat)
  | DateTime (t : Nat)
  | Date (s : String)
  | Time (s : String)
  | Decimal (s : String)
  | Json
deriving DecidableEq

structure TableMetadata where
  database : String
  table : String
  columns : List String
  column_types : List String
  primary_key : List String
deriving DecidableEq

structure WriteRowsData where
  table_id : Nat
  flags : Nat
  column_count : Nat
  columns_present : List Nat
  rows : List (List CellValue)
deriving DecidableEq

structure UpdateRowsData where
  table_id : Nat
  flags : Nat
  column_count : Nat
  columns_present : List Nat
  columns_changed : List Nat
  rows : List (List CellValue × List CellValue)
deriving DecidableEq

structure DeleteRowsData where
  table_id : Nat
  flags : Nat
  column_count : Nat
  columns_present : List Nat
  rows : List (List CellValue)
deriving DecidableEq

structure QueryEventData where
  thread_id : Nat
  exec_time : Nat
  database : String
  query : String
deriving DecidableEq

structure ChangeEvent where
  gtid : Option String
  op : OperationType
  timestamp : Nat
  database : String
  table : String
  before : Option (List (String × CellValue))
  after : Option (List (String × CellValue))
  query : Option String
deriving DecidableEq

def hashInsert (m : List (String × CellValue)) (k : String) (v : CellValue) :
    List (String × CellValue) :=
  if m.any (fun p => p.1 = k) then m.map (fun p => if p.1 = k then (k, v) else p)
  else m ++ [(k, v)]

def buildRowMap (columns : List String) (row : List CellValue) :
    List (String × CellValue) :=
  columns.enum.foldl (fun m p =>
    if p.1 < row.length then hashInsert m p.2 (row.getD p.1 CellValue.Null) else m) []

def write_rows_to_change_event (now : Nat) (data : WriteRowsData)
    (table : TableMetadata) : List ChangeEvent :=
  data.rows.map (fun row =>
    { gtid := none, op := OperationType.Insert, timestamp := now,
      database := table.database, table := table.table,
      before := none, after := some (buildRowMap table.columns row), query := none })

def update_rows_to_change_event (now : Nat) (data : UpdateRowsData)
    (table : TableMetadata) : List ChangeEvent :=
  data.rows.map (fun rowPair =>
    { gtid := none, op := OperationType.Update, timestamp := now,
      database := table.database, table := table.table,
      before := some (buildRowMap table.columns rowPair.1),
      after := some (buildRowMap table.columns rowPair.2), query := none })

def delete_rows_to_change_event (now : Nat) (data : DeleteRowsData)
    (table : TableMetadata) : List ChangeEvent :=
  data.rows.map (fun row =>
    { gtid := none, op := OperationType.Delete, timestamp := now,
      database := table.database, table := table.table,
      before := some (buildRowMap table.columns row), after := none, query := none })

def strToUpper (s : String) : String := String.mk (s.data.map Char.toUpper)

def startsWithChars : List Char → List Char → Bool
  | _, [] => true
  | [], _ :: _ => false
  | c :: cs, p :: ps => c = p && startsWithChars cs ps

def strStartsWith (s pre : String) : Bool := startsWithChars s.data pre.data

def query_to_change_event (include_ddl : Bool) (now : Nat) (data : QueryEventData) :
    Option ChangeEvent :=
  if !include_ddl then none
  else
    let upper_query := strToUpper data.query
    if strStartsWith upper_query "CREATE" || strStartsWith upper_query "ALTER" ||
       strStartsWith upper_query "DROP" then
      some { gtid := none, op := OperationType.Ddl, timestamp := now,
             database := data.database, table := "", before := none, after := none,
             query := some data.query }
    else none


/-! ### First theorems -/

/-- Helper: a single MySQL frame is read back exactly: the 3-byte LE length,
one sequence byte, then precisely the body; the rest of the stream is left
unread. -/
theorem readPacket_frame (b0 b1 b2 sq : Nat) (body rest : List Nat)
    (hlen : body.length = b0 + b1 * 256 + b2 * 65536) :
    readPacket (b0 :: b1 :: b2 :: sq :: (body ++ rest)) = some (body, rest) := by
  have h3 : readExact 3 (b0 :: b1 :: b2 :: sq :: (body ++ rest)) =
      some ([b0, b1, b2], sq :: (body ++ rest)) := by
    unfold readExact
    rw [if_pos (by simp)]
    rfl
  have h1 : readExact 1 (sq :: (body ++ rest)) = some ([sq], body ++ rest) := by
    unfold readExact
    rw [if_pos (by simp)]
    rfl
  have hb : readExact (b0 + b1 * 256 + b2 * 65536) (body ++ rest) = some (body, rest) := by
    unfold readExact
    rw [if_pos (by simp [hlen.symm]), ← hlen, List.take_left, List.drop_left]
  simp [readPacket, h3, h1, hb, List.getD]

theorem U64_pos : 0 < U64 := by decide

theorem u64sub1_eq (x : Nat) (h1 : 0 < x) (h2 : x < U64) : u64sub1 x = x - 1 := by
  unfold u64sub1
  have hx : x + (U64 - 1) = (x - 1) + U64 := by
    have : (1 : Nat) ≤ U64 := U64_pos
    omega
  rw [hx, Nat.add_mod_right, Nat.mod_eq_of_lt (by omega)]

theorem u64add1_eq (x : Nat) (h : x + 1 < U64) : u64add1 x = x + 1 := by
  unfold u64add1
  exact Nat.mod_eq_of_lt h

theorem subtractRanges_spec (o : GtidRange) (ho : rangeWf o) :
    ∀ rs, rangesWf rs →
      ∃ rs2, subtractRanges rs o = some rs2 ∧ rangesWf rs2 ∧
        ∀ x, rangesContain rs2 x = (rangesContain rs x && !(o.containsV x)) := by
  intro rs
  induction rs with
  | nil =>
    intro _
    refine ⟨[], rfl, fun r hr => absurd hr (List.not_mem_nil r), ?_⟩
    intro x
    simp [rangesContain]
  | cons r rest ih =>
    intro hwf
    have hr : rangeWf r := hwf r (List.mem_cons_self r rest)
    have hrest : rangesWf rest := fun q hq => hwf q (List.mem_cons_of_mem r hq)
    obtain ⟨tail, htail, htailwf, htailmem⟩ := ih hrest
    by_cases hdisj : r.stop < o.start ∨ r.start > o.stop
    · refine ⟨r :: tail, ?_, ?_, ?_⟩
      · unfold subtractRanges
        rw [if_pos hdisj, htail]
        rfl
      · intro q hq
        rcases List.mem_cons.mp hq with h | h
        · exact h ▸ hr
        · exact htailwf q h
      · intro x
        have hm := htailmem x
        simp only [rangesContain, List.any_cons] at hm ⊢
        rw [hm]
        cases hb : rest.any (fun q => q.containsV x) <;>
          simp [GtidRange.containsV] <;> omega
    · push_neg at hdisj
      obtain ⟨h1, h2⟩ := hdisj
      by_cases hl : r.start < o.start <;> by_cases hr2 : r.stop > o.stop
      · have hsub : u64sub1 o.start = o.start - 1 := u64sub1_eq _ (by omega) ho.1
        have hadd : u64add1 o.stop = o.stop + 1 := u64add1_eq _ (by have := hr.2; omega)
        have hnew1 : GtidRange.new r.start (o.start - 1) = some ⟨r.start, o.start - 1⟩ := by
          unfold GtidRange.new
          rw [if_neg (by omega)]
        have hnew2 : GtidRange.new (o.stop + 1) r.stop = some ⟨o.stop + 1, r.stop⟩ := by
          unfold GtidRange.new
          rw [if_neg (by omega)]
        refine ⟨⟨r.start, o.start - 1⟩ :: ⟨o.stop + 1, r.stop⟩ :: tail, ?_, ?_, ?_⟩
        · unfold subtractRanges
          rw [if_neg (by omega)]
          simp [hl, hr2, hsub, hadd, hnew1, hnew2, htail]
        · intro q hq
          rcases List.mem_cons.mp hq with h | h
          · subst h
            refine ⟨hr.1, ?_⟩
            show o.start - 1 < U64
            have := ho.1
            omega
          rcases List.mem_cons.mp h with h3 | h3
          · subst h3
            refine ⟨?_, hr.2⟩
            show o.stop + 1 < U64
            have := hr.2
            omega
          · exact htailwf q h3
        · intro x
          have hm := htailmem x
          simp only [rangesContain, List.any_cons] at hm ⊢
          rw [hm]
          cases hb : rest.any (fun q => q.containsV x) <;>
            rw [Bool.eq_iff_iff] <;> simp [GtidRange.containsV] <;> omega
      · have hsub : u64sub1 o.start = o.start - 1 := u64sub1_eq _ (by omega) ho.1
        have hnew1 : GtidRange.new r.start (o.start - 1) = some ⟨r.start, o.start - 1⟩ := by
          unfold GtidRange.new
          rw [if_neg (by omega)]
        refine ⟨⟨r.start, o.start - 1⟩ :: tail, ?_, ?_, ?_⟩
        · unfold subtractRanges
          rw [if_neg (by omega)]
          simp [hl, hr2, hsub, hnew1, htail]
        · intro q hq
          rcases List.mem_cons.mp hq with h | h
          · subst h
            refine ⟨hr.1, ?_⟩
            show o.start - 1 < U64
            have := ho.1
            omega
          · exact htailwf q h
        · intro x
          have hm := htailmem x
          simp only [rangesContain, List.any_cons] at hm ⊢
          rw [hm]
          cases hb : rest.any (fun q => q.containsV x) <;>
            rw [Bool.eq_iff_iff] <;> simp [GtidRange.containsV] <;> omega
      · have hadd : u64add1 o.stop = o.stop + 1 := u64add1_eq _ (by have := hr.2; omega)
        have hnew2 : GtidRange.new (o.stop + 1) r.stop = some ⟨o.stop + 1, r.stop⟩ := by
          unfold GtidRange.new
          rw [if_neg (by omega)]
        refine ⟨⟨o.stop + 1, r.stop⟩ :: tail, ?_, ?_, ?_⟩
        · unfold subtractRanges
          rw [if_neg (by omega)]
          simp [hl, hr2, hadd, hnew2, htail]
        · intro q hq
          rcases List.mem_cons.mp hq with h | h
          · subst h
            refine ⟨?_, hr.2⟩
            show o.stop + 1 < U64
            have := hr.2
            omega
          · exact htailwf q h
        · intro x
          have hm := htailmem x
          simp only [rangesContain, List.any_cons] at hm ⊢
          rw [hm]
          cases hb : rest.any (fun q => q.containsV x) <;>
            rw [Bool.eq_iff_iff] <;> simp [GtidRange.containsV] <;> omega
      · refine ⟨tail, ?_, htailwf, ?_⟩
        · unfold subtractRanges
          rw [if_neg (by omega)]
          simp [hl, hr2, htail]
        · intro x
          have hm := htailmem x
          simp only [rangesContain, List.any_cons] at hm ⊢
          rw [hm]
          cases hb : rest.any (fun q => q.containsV x) <;>
            rw [Bool.eq_iff_iff] <;> simp [GtidRange.containsV] <;> omega

theorem subtractAll_spec :
    ∀ (os : List GtidRange), rangesWf os → ∀ rs, rangesWf rs →
      ∃ rs2, subtractAll rs os = some rs2 ∧ rangesWf rs2 ∧
        ∀ x, rangesContain rs2 x = (rangesContain rs x && !(rangesContain os x)) := by
  intro os
  induction os with
  | nil =>
    intro _ rs hrs
    refine ⟨rs, rfl, hrs, ?_⟩
    intro x
    simp [rangesContain]
  | cons o os2 ih =>
    intro hos rs hrs
    have ho : rangeWf o := hos o (List.mem_cons_self o os2)
    have hos2 : rangesWf os2 := fun q hq => hos q (List.mem_cons_of_mem o hq)
    obtain ⟨rs1, h1, h1wf, h1mem⟩ := subtractRanges_spec o ho rs hrs
    obtain ⟨rs2, h2, h2wf, h2mem⟩ := ih hos2 rs1 h1wf
    refine ⟨rs2, ?_, h2wf, ?_⟩
    · show (o :: os2).foldlM (fun acc o => subtractRanges acc o) rs = some rs2
      rw [List.foldlM_cons, h1]
      exact h2
    · intro x
      rw [h2mem x, h1mem x]
      simp only [rangesContain, List.any_cons]
      cases o.containsV x <;> cases os2.any (fun q => q.containsV x) <;> simp



theorem subtractEntry_shape (B : GtidSet) (p q : String × UUIDGtidSet)
    (hp : subtractEntry B p = some q) :
    q.1 = p.1 ∧
    (match mapGet B.sets p.1 with
     | none => q = p
     | some bset => ∃ rs, subtractAll p.2.ranges bset.ranges = some rs ∧
         q = (p.1, { p.2 with ranges := rs })) := by
  unfold subtractEntry at hp
  cases hB : mapGet B.sets p.1 with
  | none =>
    rw [hB] at hp
    simp at hp
    subst hp
    exact ⟨rfl, rfl⟩
  | some bset =>
    rw [hB] at hp
    simp at hp
    obtain ⟨rs, hrs, hq⟩ := hp
    subst hq
    exact ⟨rfl, rs, hrs, rfl⟩

theorem subtractSets_lookup (B : GtidSet) :
    ∀ (l l2 : List (String × UUIDGtidSet)), subtractSets B l = some l2 →
      ∀ k, (mapGet l k = none → mapGet l2 k = none) ∧
        (∀ v, mapGet l k = some v →
          match mapGet B.sets k with
          | none => mapGet l2 k = some v
          | some bset => ∃ rs, subtractAll v.ranges bset.ranges = some rs ∧
              mapGet l2 k = some { v with ranges := rs }) := by
  intro l
  induction l with
  | nil =>
    intro l2 h k
    unfold subtractSets at h
    have hl2 : l2 = [] := by simpa using h.symm
    subst hl2
    exact ⟨fun _ => rfl, fun v hv => by simp [mapGet] at hv⟩
  | cons p rest ih =>
    intro l2 h k
    unfold subtractSets at h
    cases hp : subtractEntry B p with
    | none => rw [hp] at h; simp at h
    | some q =>
      rw [hp] at h
      cases hrest : subtractSets B rest with
      | none => rw [hrest] at h; simp at h
      | some qs =>
        rw [hrest] at h
        simp at h
        have hl2 : l2 = q :: qs := h.symm
        subst hl2
        obtain ⟨hq1, hq⟩ := subtractEntry_shape B p q hp
        by_cases hk : p.1 = k
        · rw [hk] at hq1 hq
          constructor
          · intro hnone
            simp [mapGet, hk] at hnone
          · intro v hv
            have hv2 : p.2 = v := by
              simp [mapGet, hk] at hv
              rw [hv]
            cases hB : mapGet B.sets k with
            | none =>
              rw [hB] at hq
              simp only [] at hq
              rw [← hv2]
              simp [mapGet, hq, hq1, hk]
            | some bset =>
              rw [hB] at hq
              simp only [] at hq
              obtain ⟨rs, hrs, hqe⟩ := hq
              refine ⟨rs, by rw [← hv2]; exact hrs, ?_⟩
              rw [← hv2, show mapGet (q :: qs) k = some q.2 from by simp [mapGet, hq1], hqe]
        · have hg1 : mapGet (p :: rest) k = mapGet rest k := by simp [mapGet, hk]
          have hg2 : mapGet (q :: qs) k = mapGet qs k := by simp [mapGet, hq1 ▸ hk]
          rw [hg1, hg2]
          exact ih qs hrest k

theorem mapGet_mem : ∀ (l : List (String × UUIDGtidSet)) (k : String) (v : UUIDGtidSet),
    mapGet l k = some v → (k, v) ∈ l := by
  intro l
  induction l with
  | nil => intro k v h; simp [mapGet] at h
  | cons p rest ih =>
    intro k v h
    unfold mapGet at h
    by_cases hk : p.1 = k
    · rw [if_pos hk] at h
      have hv : p.2 = v := Option.some.inj h
      have : (k, v) = p := by rw [← hk, ← hv]
      rw [this]
      exact List.mem_cons_self p rest
    · rw [if_neg hk] at h
      exact List.mem_cons_of_mem p (ih k v h)

theorem subtractSets_total (B : GtidSet) (hB : B.wf64) :
    ∀ l, (∀ p ∈ l, rangesWf p.2.ranges) → ∃ l2, subtractSets B l = some l2 := by
  intro l
  induction l with
  | nil => intro _; exact ⟨[], rfl⟩
  | cons p rest ih =>
    intro hwf
    obtain ⟨qs, hqs⟩ := ih (fun q hq => hwf q (List.mem_cons_of_mem p hq))
    have hp : ∃ q, subtractEntry B p = some q := by
      unfold subtractEntry
      cases hg : mapGet B.sets p.1 with
      | none => exact ⟨p, rfl⟩
      | some bset =>
        have hbw : rangesWf bset.ranges := hB (p.1, bset) (mapGet_mem B.sets p.1 bset hg)
        have haw : rangesWf p.2.ranges := hwf p (List.mem_cons_self p rest)
        obtain ⟨rs, hrs, _, _⟩ := subtractAll_spec bset.ranges hbw p.2.ranges haw
        exact ⟨(p.1, { p.2 with ranges := rs }), by simp [hrs]⟩
    obtain ⟨q, hq⟩ := hp
    refine ⟨q :: qs, ?_⟩
    unfold subtractSets
    rw [hq, hqs]
    rfl

/-- C5: for all GTID sets `A`, `B` (with `u64`-valued bounds) and every GTID
`(uuid, seq)`, the set returned by `A.subtract(B)` contains the GTID iff `A`
contains it and `B` does not. -/
theorem c5_subtract_contains (A B C : GtidSet) (hA : A.wf64) (hB : B.wf64)
    (h : A.subtract B = some C) (uuid : String) (seq : Nat) :
    C.containsPair uuid seq = (A.containsPair uuid seq && !(B.containsPair uuid seq)) := by
  unfold GtidSet.subtract at h
  cases hs : subtractSets B A.sets with
  | none => rw [hs] at h; simp at h
  | some l2 =>
    rw [hs] at h
    simp at h
    have hlook := subtractSets_lookup B A.sets l2 hs uuid
    unfold GtidSet.containsPair
    rw [← h]
    cases hga : mapGet A.sets uuid with
    | none =>
      rw [hlook.1 hga]
      simp
    | some aset =>
      have hstep := hlook.2 aset hga
      cases hgb : mapGet B.sets uuid with
      | none =>
        rw [hgb] at hstep
        simp only [] at hstep
        rw [hstep]
        simp
      | some bset =>
        rw [hgb] at hstep
        simp only [] at hstep
        obtain ⟨rs, hrs, hl2⟩ := hstep
        have haw : rangesWf aset.ranges := hA (uuid, aset) (mapGet_mem A.sets uuid aset hga)
        have hbw : rangesWf bset.ranges := hB (uuid, bset) (mapGet_mem B.sets uuid bset hgb)
        obtain ⟨rs2, hrs2, _, hmem⟩ := subtractAll_spec bset.ranges hbw aset.ranges haw
        have hrseq : rs2 = rs := by
          rw [hrs] at hrs2
          exact (Option.some.inj hrs2).symm
        rw [hl2]
        subst hrseq
        exact hmem seq

/-- C5 witness: `[1,10] \ [3,5] = [1,2] + [6,10]` for a shared UUID, checked at
`seq = 4`, which lies in `A` and in `B` and therefore not in the result. -/
theorem c5_subtract_contains_witness :
    GtidSet.containsPair ⟨[("u", ⟨"u", [⟨1, 2⟩, ⟨6, 10⟩]⟩)]⟩ "u" 4 =
      (GtidSet.containsPair ⟨[("u", ⟨"u", [⟨1, 10⟩]⟩)]⟩ "u" 4 &&
        !(GtidSet.containsPair ⟨[("u", ⟨"u", [⟨3, 5⟩]⟩)]⟩ "u" 4)) :=
  c5_subtract_contains ⟨[("u", ⟨"u", [⟨1, 10⟩]⟩)]⟩ ⟨[("u", ⟨"u", [⟨3, 5⟩]⟩)]⟩
    ⟨[("u", ⟨"u", [⟨1, 2⟩, ⟨6, 10⟩]⟩)]⟩ (by decide) (by decide) (by decide) "u" 4

/-- C10: `GtidSet::subtract` never panics: for `u64`-valued inputs every
internal `GtidRange::new(..).unwrap()` succeeds, even without the `start ≥ 1`
invariant, because the guards `range.start < other_range.start` and
`range.end > other_range.end` make the constructed bounds well-ordered and
keep the `u64` arithmetic from wrapping. -/
theorem c10_subtract_total (A B : GtidSet) (hA : A.wf64) (hB : B.wf64) :
    (A.subtract B).isSome = true := by
  obtain ⟨l2, h⟩ := subtractSets_total B hB A.sets hA
  unfold GtidSet.subtract
  rw [h]
  rfl

/-- C10 witness: the subtraction of the concrete sets of the C5 witness is
defined (no panic). -/
theorem c10_subtract_total_witness :
    (GtidSet.subtract ⟨[("u", ⟨"u", [⟨1, 10⟩]⟩)]⟩ ⟨[("u", ⟨"u", [⟨3, 5⟩]⟩)]⟩).isSome = true :=
  c10_subtract_total ⟨[("u", ⟨"u", [⟨1, 10⟩]⟩)]⟩ ⟨[("u", ⟨"u", [⟨3, 5⟩]⟩)]⟩
    (by decide) (by decide)

theorem sha1_length (msg : List Nat) : (sha1 msg).length = 20 := by
  unfold sha1
  rcases hs : (toBlocks (sha1Pad msg).length (sha1Pad msg)).foldl sha1Compress sha1Init with
    ⟨a, b, c, d, e⟩
  simp [wordBE]

theorem map_range_xor_eq_zipWith (l1 l2 : List Nat) (h1 : l1.length = 20)
    (h2 : l2.length = 20) :
    (List.range 20).map (fun i => l1.getD i 0 ^^^ l2.getD i 0) =
      List.zipWith (fun a b => a ^^^ b) l1 l2 := by
  apply List.ext_getElem
  · simp [h1, h2]
  · intro i hi1 hi2
    simp only [List.getElem_map, List.getElem_range, List.getElem_zipWith]
    have hi : i < 20 := by simpa using hi1
    rw [List.getD_eq_getElem l1 0 (by omega), List.getD_eq_getElem l2 0 (by omega)]

/-- C7: the native-password reply is empty for an empty password and otherwise
is exactly 20 bytes, byte-by-byte the XOR of `SHA1(password)` with
`SHA1(scramble ++ SHA1(SHA1(password)))`. -/
theorem c7_create_auth_response (password scramble : List Nat) :
    (password = [] → create_auth_response password scramble = []) ∧
    (password ≠ [] →
      (create_auth_response password scramble).length = 20 ∧
      create_auth_response password scramble =
        List.zipWith (fun a b => a ^^^ b) (sha1 password)
          (sha1 (scramble ++ sha1 (sha1 password)))) := by
  constructor
  · intro h
    subst h
    rfl
  · intro h
    have hne : password.isEmpty = false := by
      cases password with
      | nil => exact absurd rfl h
      | cons a l => rfl
    constructor
    · unfold create_auth_response
      rw [hne]
      simp
    · unfold create_auth_response
      rw [hne]
      simp only [Bool.false_eq_true, if_false]
      exact map_range_xor_eq_zipWith _ _ (sha1_length password)
        (sha1_length (scramble ++ sha1 (sha1 password)))

/-- C7 witness: the reply for password byte `0x61` and scramble `[1, 2]` is
20 bytes and matches the XOR formula. -/
theorem c7_create_auth_response_witness :
    (create_auth_response [0x61] [1, 2]).length = 20 ∧
    create_auth_response [0x61] [1, 2] =
      List.zipWith (fun a b => a ^^^ b) (sha1 [0x61])
        (sha1 ([1, 2] ++ sha1 (sha1 [0x61]))) :=
  (c7_create_auth_response [0x61] [1, 2]).2 (by decide)

/-- C8: per-operation shape invariants of the change records: an Insert
record has an after image and no before image; a Delete record has a before
image and no after image; an Update record has both; a Ddl record carries the
raw query text and an empty table name with neither image. -/
theorem c8_change_event_shapes :
    (∀ (now : Nat) (data : WriteRowsData) (table : TableMetadata),
      ∀ ev ∈ write_rows_to_change_event now data table,
        ev.op = OperationType.Insert ∧ ev.after.isSome ∧ ev.before = none) ∧
    (∀ (now : Nat) (data : DeleteRowsData) (table : TableMetadata),
      ∀ ev ∈ delete_rows_to_change_event now data table,
        ev.op = OperationType.Delete ∧ ev.before.isSome ∧ ev.after = none) ∧
    (∀ (now : Nat) (data : UpdateRowsData) (table : TableMetadata),
      ∀ ev ∈ update_rows_to_change_event now data table,
        ev.op = OperationType.Update ∧ ev.before.isSome ∧ ev.after.isSome) ∧
    (∀ (include_ddl : Bool) (now : Nat) (data : QueryEventData) (ev : ChangeEvent),
      query_to_change_event include_ddl now data = some ev →
        ev.op = OperationType.Ddl ∧ ev.query = some data.query ∧ ev.table = "" ∧
        ev.before = none ∧ ev.after = none) := by
  refine ⟨?_, ?_, ?_, ?_⟩
  · intro now data table ev hev
    obtain ⟨row, _, hrow⟩ := List.mem_map.mp hev
    subst hrow
    exact ⟨rfl, rfl, rfl⟩
  · intro now data table ev hev
    obtain ⟨row, _, hrow⟩ := List.mem_map.mp hev
    subst hrow
    exact ⟨rfl, rfl, rfl⟩
  · intro now data table ev hev
    obtain ⟨row, _, hrow⟩ := List.mem_map.mp hev
    subst hrow
    exact ⟨rfl, rfl, rfl⟩
  · intro include_ddl now data ev hev
    unfold query_to_change_event at hev
    by_cases hd : include_ddl
    · rw [hd] at hev
      simp only [Bool.not_true, Bool.false_eq_true, if_false] at hev
      by_cases hq : (strStartsWith (strToUpper data.query) "CREATE" ||
          strStartsWith (strToUpper data.query) "ALTER" ||
          strStartsWith (strToUpper data.query) "DROP") = true
      · rw [if_pos hq] at hev
        have := Option.some.inj hev
        rw [← this]
        exact ⟨rfl, rfl, rfl, rfl, rfl⟩
      · rw [if_neg hq] at hev
        exact absurd hev (by simp)
    · have : include_ddl = false := by
        cases include_ddl
        · rfl
        · exact absurd rfl hd
      rw [this] at hev
      simp at hev

/-- C8 witness: the record produced from a one-row WRITE_ROWS event has the
Insert shape. -/
theorem c8_witness :
    (ChangeEvent.mk none OperationType.Insert 0 "db" "t" none
        (some [("c", CellValue.Null)]) none).op = OperationType.Insert ∧
    (ChangeEvent.mk none OperationType.Insert 0 "db" "t" none
        (some [("c", CellValue.Null)]) none).after.isSome ∧
    (ChangeEvent.mk none OperationType.Insert 0 "db" "t" none
        (some [("c", CellValue.Null)]) none).before = none :=
  c8_change_event_shapes.1 0 ⟨0, 0, 1, [1], [[CellValue.Null]]⟩
    ⟨"db", "t", ["c"], ["int"], []⟩
    (ChangeEvent.mk none OperationType.Insert 0 "db" "t" none
      (some [("c", CellValue.Null)]) none) (by decide)

/-- C9 counterexample: with DDL reporting enabled, the query
`TRUNCATE TABLE users` (first word `TRUNCATE`, a member of the claim's
keyword set) produces no Ddl record: the source checks only the prefixes
`CREATE`, `ALTER` and `DROP`. -/
theorem c9_counterexample :
    query_to_change_event true 0 ⟨0, 0, "testdb", "TRUNCATE TABLE users"⟩ = none := by
  decide

/-- C9 (amended): a Ddl change record is emitted iff DDL reporting is
enabled and the uppercased query string starts with `CREATE`, `ALTER` or
`DROP` (a plain prefix match, not a first-word match); `TRUNCATE` and
`RENAME` queries never emit, and nothing is emitted when reporting is
disabled. -/
theorem c9_query_ddl_iff (include_ddl : Bool) (now : Nat) (data : QueryEventData) :
    (query_to_change_event include_ddl now data).isSome =
      (include_ddl && (strStartsWith (strToUpper data.query) "CREATE" ||
        strStartsWith (strToUpper data.query) "ALTER" ||
        strStartsWith (strToUpper data.query) "DROP")) := by
  unfold query_to_change_event
  cases include_ddl
  · simp
  · simp only [Bool.not_true, Bool.false_eq_true, if_false, Bool.true_and]
    by_cases hq : (strStartsWith (strToUpper data.query) "CREATE" ||
        strStartsWith (strToUpper data.query) "ALTER" ||
        strStartsWith (strToUpper data.query) "DROP") = true
    · rw [if_pos hq, hq]
      rfl
    · rw [if_neg hq]
      simp at hq
      simp [hq]

set_option maxRecDepth 10000

/-- C1: evaluation of `read_lcb` at the failing input `[0xFC, 0x01, 0x00, 0x02]`:
the source reads a u24 little-endian after the `0xFC` prefix, yielding
`131073 = 0x020001` and consuming three bytes, where the claim (and the MySQL
wire format) prescribe a u16 little-endian, which would yield `1` and leave
`[0x02]` unread. -/
theorem c1_read_lcb_0xfc_reads_u24 :
    read_lcb [0xfc, 0x01, 0x00, 0x02] = some (131073, []) ∧
    read_lcb [0xfc, 0x01, 0x00, 0x02] ≠ some (1, [0x02]) := by
  decide

/-- C2: evaluation of serialize-after-parse at the canonical GTID string
`550e8400-e29b-41d4-a716-446655440000:1-100:200:300-400` (colon-separated
ranges, the server's canonical form): `parse` accepts it but, because the
multi-range token `1-100:200:300-400` splits on `-` into three parts and is
silently discarded, the UUID ends up with no ranges and `to_string` returns
`""` instead of the input. -/
theorem c2_parse_to_string_not_stable :
    (GtidSet.parse "550e8400-e29b-41d4-a716-446655440000:1-100:200:300-400").map
        GtidSet.toStr = some "" ∧
    "" ≠ "550e8400-e29b-41d4-a716-446655440000:1-100:200:300-400" := by
  decide

/-- C4: `parse` maps the empty string and `"NULL"` to the empty set, but on
the input `550e8400-e29b-41d4-a716-446655440000:5,zzz`, whose token `zzz` is
malformed, it succeeds with the set built from the well-formed token `5`
instead of returning a `GtidParse` error: the ranges scan stops at the first
comma and the outer loop drops `zzz` while searching for another `uuid:`. -/
theorem c4_parse_partial_success :
    GtidSet.parse "" = some ⟨[]⟩ ∧ GtidSet.parse "NULL" = some ⟨[]⟩ ∧
    GtidSet.parse "550e8400-e29b-41d4-a716-446655440000:5,zzz" =
      some ⟨[("550e8400-e29b-41d4-a716-446655440000",
             ⟨"550e8400-e29b-41d4-a716-446655440000", [⟨5, 5⟩]⟩)]⟩ := by
  decide

/-- C3 counterexample: a stream whose first frame has length field exactly
`0x00FFFFFF` followed by a one-byte continuation frame.  `read_packet`
returns the first frame's body alone and leaves the continuation frame
unread, instead of the concatenation the claim requires (which would be the
body extended with `0xBB`). -/
theorem c3_counterexample :
    readPacket ([0xff, 0xff, 0xff, 0] ++
        (List.replicate 16777215 0xaa ++ [0x01, 0x00, 0x00, 1, 0xbb])) =
      some (List.replicate 16777215 0xaa, [0x01, 0x00, 0x00, 1, 0xbb]) ∧
    List.replicate 16777215 0xaa ≠ List.replicate 16777215 0xaa ++ [0xbb] := by
  constructor
  · exact readPacket_frame 0xff 0xff 0xff 0 (List.replicate 16777215 0xaa)
      [0x01, 0x00, 0x00, 1, 0xbb] (by rw [List.length_replicate])
  · intro h
    have hlen := congrArg List.length h
    rw [List.length_append, List.length_replicate, List.length_singleton] at hlen
    omega

/-- C3 (amended): a `read_packet` call returns exactly one frame: the 3-byte
little-endian length, one sequence byte, then precisely `length` body bytes,
returned as-is with the rest of the stream (including any continuation
frames, even when the length field is `0x00FFFFFF`) left unread. -/
theorem c3_read_packet_single_frame (b0 b1 b2 sq : Nat) (body rest : List Nat)
    (hlen : body.length = b0 + b1 * 256 + b2 * 65536) :
    readPacket (b0 :: b1 :: b2 :: sq :: (body ++ rest)) = some (body, rest) :=
  readPacket_frame b0 b1 b2 sq body rest hlen

/-- C3 witness: a two-byte frame followed by an unread trailing byte. -/
theorem c3_read_packet_single_frame_witness :
    readPacket [2, 0, 0, 0, 7, 9, 5] = some ([7, 9], [5]) :=
  c3_read_packet_single_frame 2 0 0 0 [7, 9] [5] (by decide)

/-- C6 counterexample: at position `2 ^ 32` the `binlog_position as u32` cast
truncates, so decoding the encoded command recovers position `0`, not
`2 ^ 32`. -/
theorem c6_counterexample :
    decode_binlog_dump_command (create_binlog_dump_command 1 [0x61] 4294967296) ≠
      some (1, [0x61], 4294967296) := by
  decide

/-- C6 (amended): the encoded `BINLOG_DUMP` command is
`[0x12][P mod 2^32 as u32 LE][flags 0 as u16 LE][S as u32 LE][raw bytes of F]`,
and decoding it by the same layout recovers `(S, F, P)` exactly whenever the
position fits in a u32 (`P < 2 ^ 32`); positions are truncated modulo `2 ^ 32`
by the source's `binlog_position as u32` cast. -/
theorem c6_dump_roundtrip (server_id : Nat) (binlog_filename : List Nat)
    (binlog_position : Nat) (hS : server_id < 4294967296)
    (hP : binlog_position < 4294967296) :
    decode_binlog_dump_command
        (create_binlog_dump_command server_id binlog_filename binlog_position) =
      some (server_id, binlog_filename, binlog_position) := by
  unfold create_binlog_dump_command u32le u16le
  simp only [List.cons_append, List.nil_append]
  simp only [decode_binlog_dump_command]
  rw [if_pos ⟨trivial, trivial, trivial⟩]
  simp only [Option.some.injEq, Prod.mk.injEq]
  refine ⟨by omega, trivial, by omega⟩

/-- C6 witness: the round trip at `S = 1`, `F = [0x61]`, `P = 4`. -/
theorem c6_dump_roundtrip_witness :
    decode_binlog_dump_command (create_binlog_dump_command 1 [0x61] 4) =
      some (1, [0x61], 4) :=
  c6_dump_roundtrip 1 [0x61] 4 (by decide) (by decide)
